import Mathlib

/-!
Verification of the NachOS file-header (BlockIndex) engine and the
multilevel-feedback scheduler, shallowly embedded from
`code/filesys/filehdr.cc` and `code/threads/scheduler.cc`.

Machine integers of the C++ source (`int`) are modelled as `Int`; the C
truncating integer division is `Int.tdiv`.  External collaborators (the
free-sector bitmap, the synchronous disk, threads and the two sorted ready
queues) are not part of `src/`, so they are modelled from the spec, as noted
on each definition.
-/

/-- Modelled from the spec: the geometry constants of `filehdr.h`, which is
not part of the visible source.  The spec gives the capacity ladder
`SingleSize = NumDirect * SectorSize`, `DoubleSize = NumDirect * SingleSize`,
`TripleSize = NumDirect * DoubleSize` but not the numeric values of
`SectorSize` and `NumDirect`, so both are kept as parameters. -/
structure FsGeometry where
  sectorSize : Int
  numDirect : Int
deriving DecidableEq, Repr

/-- Capacity in bytes of a leaf node: `SingleSize = NumDirect * SectorSize`. -/
def singleSize (g : FsGeometry) : Int := g.numDirect * g.sectorSize

/-- Capacity in bytes of a double-indirect subtree: `DoubleSize = NumDirect * SingleSize`. -/
def doubleSize (g : FsGeometry) : Int := g.numDirect * singleSize g

/-- Capacity in bytes of a triple-indirect subtree: `TripleSize = NumDirect * DoubleSize`. -/
def tripleSize (g : FsGeometry) : Int := g.numDirect * doubleSize g

/-- The `divRoundUp(n, v) = (n + v - 1) / v` macro of NachOS, with the C
truncating division. -/
def divRoundUp (n v : Int) : Int := Int.tdiv (n + v - 1) v

/-- The `divRoundDown(n, v) = n / v` macro of NachOS, with the C truncating
division. -/
def divRoundDown (n v : Int) : Int := Int.tdiv n v

/-- Modelled from the spec: the free-sector pool (`PersistentBitmap`), a bit
per sector, `true` meaning the sector is in use and `false` meaning free. -/
abbrev Bitmap := List Bool

/-- Number of free (clear) sectors: `Bitmap::NumClear`. -/
def bmNumClear (bm : Bitmap) : Nat := bm.countP (fun b => !b)

/-- Modelled from the spec: `Bitmap::FindAndSet` returns the lowest-numbered
clear bit after setting it, or `-1` when no bit is clear. -/
def bmFindAndSet (bm : Bitmap) : Int × Bitmap :=
  match bm.findIdx? (fun b => !b) with
  | some i => ((i : Int), bm.set i true)
  | none => (-1, bm)

/-- Modelled from the spec: `Bitmap::Clear` clears one bit (a no-op here for
an out-of-range index, which the real bitmap rejects with an assertion). -/
def bmClear (bm : Bitmap) (i : Int) : Bitmap :=
  if 0 ≤ i then bm.set i.toNat false else bm

/-- Modelled from the spec: `Bitmap::Test` reports whether a bit is set. -/
def bmTest (bm : Bitmap) (i : Int) : Bool :=
  if 0 ≤ i then bm.getD i.toNat false else false

/-- One `FileHeader` node: `numBytes`, `numSectors` and the `dataSectors`
table.  `dataSectors` keeps only the entries written so far, in order; a read
past the written region yields `-1`, the value the source constructor
`memset`s the whole table to. -/
structure FileHeader where
  numBytes : Int
  numSectors : Int
  dataSectors : List Int
deriving DecidableEq, Repr

/-- The fresh node produced by the `FileHeader` constructor (`numBytes`,
`numSectors` and every table entry are `-1`). -/
def hdrInit : FileHeader := { numBytes := -1, numSectors := -1, dataSectors := [] }

/-- State touched by the BlockIndex engine: the free-sector bitmap, plus the
disk viewed as the header stored at each sector (only headers are ever read
back through `FetchFrom`, so the disk is modelled at that granularity). -/
structure FsState where
  freeMap : Bitmap
  disk : Int → FileHeader

/-- The `WriteBack(sector)` of a header: store the node at its sector. -/
def writeBack (st : FsState) (sec : Int) (h : FileHeader) : FsState :=
  { st with disk := Function.update st.disk sec h }

/-- The leaf-band loop of `FileHeader::Allocate`: take `n` sectors from the
pool with successive `FindAndSet` calls, in order. -/
def takeSectors : Nat → Bitmap → List Int × Bitmap
  | 0, bm => ([], bm)
  | n + 1, bm =>
    let fr := bmFindAndSet bm
    let rest := takeSectors n fr.2
    (fr.1 :: rest.1, rest.2)

/-- `FileHeader::Allocate(freeMap, fileSize)` restricted to the leaf band
(`fileSize ≤ SingleSize`): set `numBytes`/`numSectors`, fail if the pool
reports fewer clear sectors than `numSectors`, otherwise take `numSectors`
sectors directly into `dataSectors`. -/
def allocate0 (g : FsGeometry) (st : FsState) (fileSize : Int) :
    FileHeader × FsState × Bool :=
  let nb := fileSize
  let ns := divRoundUp fileSize g.sectorSize
  if (bmNumClear st.freeMap : Int) < ns then
    ({ numBytes := nb, numSectors := ns, dataSectors := [] }, st, false)
  else
    let r := takeSectors ns.toNat st.freeMap
    ({ numBytes := nb, numSectors := ns, dataSectors := r.1 },
      { st with freeMap := r.2 }, true)

/-- The Single-band loop of `FileHeader::Allocate`: per iteration take one
sector for the child header, build a child, recursively allocate it with
`min(remaining, SingleSize)` bytes (the result being discarded, exactly as in
the source), persist the child at the taken sector, and advance by
`SingleSize`.  The child call lands in the leaf band, hence `allocate0`.
Structural recursion is on a fuel counter that the caller sets to
`fileSize.toNat`, which bounds the iteration count whenever
`0 < SingleSize`; for a degenerate geometry (`SingleSize ≤ 0`) the source
loop would not terminate. -/
def allocLoop1 (g : FsGeometry) : Nat → FsState → Int → List Int → List Int × FsState
  | 0, st, _, acc => (acc, st)
  | fuel + 1, st, fs, acc =>
    if 0 < fs then
      let fr := bmFindAndSet st.freeMap
      let childFs := if singleSize g < fs then singleSize g else fs
      let r := allocate0 g { st with freeMap := fr.2 } childFs
      allocLoop1 g fuel (writeBack r.2.1 fr.1 r.1) (fs - singleSize g) (acc ++ [fr.1])
    else (acc, st)

/-- `FileHeader::Allocate` restricted to `fileSize ≤ DoubleSize`: after the
free-count check, dispatch to the Single-band loop when
`fileSize > SingleSize`, else to the leaf-band loop. -/
def allocate1 (g : FsGeometry) (st : FsState) (fileSize : Int) :
    FileHeader × FsState × Bool :=
  let nb := fileSize
  let ns := divRoundUp fileSize g.sectorSize
  if (bmNumClear st.freeMap : Int) < ns then
    ({ numBytes := nb, numSectors := ns, dataSectors := [] }, st, false)
  else if singleSize g < fileSize then
    let r := allocLoop1 g fileSize.toNat st fileSize []
    ({ numBytes := nb, numSectors := ns, dataSectors := r.1 }, r.2, true)
  else
    let r := takeSectors ns.toNat st.freeMap
    ({ numBytes := nb, numSectors := ns, dataSectors := r.1 },
      { st with freeMap := r.2 }, true)

/-- The Double-band loop of `FileHeader::Allocate`: same pattern as
`allocLoop1` with `DoubleSize` chunks; the child call receives at most
`DoubleSize` bytes, hence `allocate1`. -/
def allocLoop2 (g : FsGeometry) : Nat → FsState → Int → List Int → List Int × FsState
  | 0, st, _, acc => (acc, st)
  | fuel + 1, st, fs, acc =>
    if 0 < fs then
      let fr := bmFindAndSet st.freeMap
      let childFs := if doubleSize g < fs then doubleSize g else fs
      let r := allocate1 g { st with freeMap := fr.2 } childFs
      allocLoop2 g fuel (writeBack r.2.1 fr.1 r.1) (fs - doubleSize g) (acc ++ [fr.1])
    else (acc, st)

/-- `FileHeader::Allocate` restricted to `fileSize ≤ TripleSize`. -/
def allocate2 (g : FsGeometry) (st : FsState) (fileSize : Int) :
    FileHeader × FsState × Bool :=
  let nb := fileSize
  let ns := divRoundUp fileSize g.sectorSize
  if (bmNumClear st.freeMap : Int) < ns then
    ({ numBytes := nb, numSectors := ns, dataSectors := [] }, st, false)
  else if doubleSize g < fileSize then
    let r := allocLoop2 g fileSize.toNat st fileSize []
    ({ numBytes := nb, numSectors := ns, dataSectors := r.1 }, r.2, true)
  else if singleSize g < fileSize then
    let r := allocLoop1 g fileSize.toNat st fileSize []
    ({ numBytes := nb, numSectors := ns, dataSectors := r.1 }, r.2, true)
  else
    let r := takeSectors ns.toNat st.freeMap
    ({ numBytes := nb, numSectors := ns, dataSectors := r.1 },
      { st with freeMap := r.2 }, true)

/-- The Triple-band loop of `FileHeader::Allocate`: `TripleSize` chunks; the
child call receives at most `TripleSize` bytes, hence `allocate2`. -/
def allocLoop3 (g : FsGeometry) : Nat → FsState → Int → List Int → List Int × FsState
  | 0, st, _, acc => (acc, st)
  | fuel + 1, st, fs, acc =>
    if 0 < fs then
      let fr := bmFindAndSet st.freeMap
      let childFs := if tripleSize g < fs then tripleSize g else fs
      let r := allocate2 g { st with freeMap := fr.2 } childFs
      allocLoop3 g fuel (writeBack r.2.1 fr.1 r.1) (fs - tripleSize g) (acc ++ [fr.1])
    else (acc, st)

/-- `FileHeader::Allocate(freeMap, fileSize)`, the full band dispatch of
`filehdr.cc` lines 69-120: set `numBytes = fileSize` and
`numSectors = divRoundUp(fileSize, SectorSize)`, return `false` leaving the
pool untouched when `NumClear() < numSectors`, otherwise run the band loop
selected by comparing `fileSize` against the capacity ladder, largest band
first, and return `true`.  The recursive child `Allocate` calls of the source
are represented by the band-restricted functions, which coincide with the
full dispatch on the sizes the loops pass down. -/
def allocate (g : FsGeometry) (st : FsState) (fileSize : Int) :
    FileHeader × FsState × Bool :=
  let nb := fileSize
  let ns := divRoundUp fileSize g.sectorSize
  if (bmNumClear st.freeMap : Int) < ns then
    ({ numBytes := nb, numSectors := ns, dataSectors := [] }, st, false)
  else if tripleSize g < fileSize then
    let r := allocLoop3 g fileSize.toNat st fileSize []
    ({ numBytes := nb, numSectors := ns, dataSectors := r.1 }, r.2, true)
  else if doubleSize g < fileSize then
    let r := allocLoop2 g fileSize.toNat st fileSize []
    ({ numBytes := nb, numSectors := ns, dataSectors := r.1 }, r.2, true)
  else if singleSize g < fileSize then
    let r := allocLoop1 g fileSize.toNat st fileSize []
    ({ numBytes := nb, numSectors := ns, dataSectors := r.1 }, r.2, true)
  else
    let r := takeSectors ns.toNat st.freeMap
    ({ numBytes := nb, numSectors := ns, dataSectors := r.1 },
      { st with freeMap := r.2 }, true)

/-- `FileHeader::Deallocate(freeMap)` of `filehdr.cc` lines 129-148.  Above
the Single band it fetches `divRoundUp(numSectors, NumDirect)` children back
from disk and deallocates each subtree (note: the child-header sectors
themselves are never cleared); in the leaf band it clears the `numSectors`
direct sectors (the source additionally asserts each one was in use).  The
`Nat` argument bounds the recursion depth, which the on-disk tree structure
bounds by the band of the root; it plays the role of the terminating
physical recursion of the source. -/
def deallocate : Nat → FsGeometry → FsState → FileHeader → FsState
  | 0, _, st, _ => st
  | depth + 1, g, st, h =>
    if singleSize g < h.numBytes then
      let sectors := divRoundUp h.numSectors g.numDirect
      (List.range sectors.toNat).foldl
        (fun s i => deallocate depth g s (s.disk (h.dataSectors.getD i (-1)))) st
    else
      { st with
        freeMap := (List.range h.numSectors.toNat).foldl
          (fun b i => bmClear b (h.dataSectors.getD i (-1))) st.freeMap }

/-- `FileHeader::ByteToSector(offset)` of `filehdr.cc` lines 202-228: descend
through the band structure, selecting the child by dividing the offset by the
child span and recursing on the remainder; in the leaf band return
`dataSectors[offset / SectorSize]`.  The `Nat` argument bounds the recursion
depth exactly as in `deallocate`. -/
def byteToSector : Nat → FsGeometry → FsState → FileHeader → Int → Int
  | 0, _, _, _, _ => -1
  | depth + 1, g, st, h, offset =>
    if tripleSize g < h.numBytes then
      let sector := divRoundDown offset (tripleSize g)
      byteToSector depth g st (st.disk (h.dataSectors.getD sector.toNat (-1)))
        (offset - sector * tripleSize g)
    else if doubleSize g < h.numBytes then
      let sector := divRoundDown offset (doubleSize g)
      byteToSector depth g st (st.disk (h.dataSectors.getD sector.toNat (-1)))
        (offset - sector * doubleSize g)
    else if singleSize g < h.numBytes then
      let sector := divRoundDown offset (singleSize g)
      byteToSector depth g st (st.disk (h.dataSectors.getD sector.toNat (-1)))
        (offset - sector * singleSize g)
    else
      h.dataSectors.getD (Int.tdiv offset g.sectorSize).toNat (-1)

/-- A small representative geometry used as concrete input: 2 bytes per
sector and 2 table entries per node, so `SingleSize = 4`, `DoubleSize = 8`,
`TripleSize = 16`. -/
def gSmall : FsGeometry := { sectorSize := 2, numDirect := 2 }

/-- A pool of 10 free sectors over an empty disk. -/
def stTen : FsState := { freeMap := List.replicate 10 false, disk := fun _ => hdrInit }

/-- A pool of exactly 3 free sectors over an empty disk. -/
def stThree : FsState := { freeMap := List.replicate 3 false, disk := fun _ => hdrInit }

/-- A pool of 20 free sectors over an empty disk. -/
def stTwenty : FsState := { freeMap := List.replicate 20 false, disk := fun _ => hdrInit }

/-! ## Scheduler model (`code/threads/scheduler.cc`) -/

/-- Modelled from the spec: the thread status values the scheduler uses. -/
inductive ThreadStatus where
  | ready
  | running
  | blocked
  | terminated
deriving DecidableEq, Repr

/-- Modelled from the spec: the `Thread` fields the scheduler reads and
writes — identity, status, `priority`, `burstTimeEstimate` (`getBurstTime`),
`burstStartTick` (`getBurstStart`) and `waitSinceTick` (`getWaitTime`). -/
structure Thread where
  id : Int
  priority : Int
  burstTime : Int
  burstStart : Int
  waitTime : Int
  status : ThreadStatus
deriving DecidableEq, Repr

/-- Scheduler state: the three ready queues, the running thread
(`kernel->currentThread`), the global tick counter (`kernel->stats->totalTicks`),
the pending preemption request of the external interrupt layer
(`kernel->interrupt->Preempt()` raises it), and `toBeDestroyed`. -/
structure SchedState where
  l1 : List Thread
  l2 : List Thread
  l3 : List Thread
  currentThread : Thread
  totalTicks : Int
  preempt : Bool
  toBeDestroyed : Option Thread
deriving DecidableEq, Repr

/-- Modelled from the spec: `SortedList<Thread *>::Insert` places the new
item before the first existing item with a strictly greater key, i.e. after
all items whose key is less than or equal — a stable insertion.  `L1Q_` uses
the burst-time estimate as key (`Thread::cmpBurstTime`, smallest first);
`L2Q_` uses the priority, highest first (`Thread::cmpPriority`), realised
here by the negated-priority key. -/
def insertByKey (key : Thread → Int) (t : Thread) : List Thread → List Thread
  | [] => [t]
  | x :: xs => if key x ≤ key t then x :: insertByKey key t xs else t :: x :: xs

/-- The mutation `ReadyToRun` applies to the admitted thread before
enqueueing it: `setStatus(READY)` and `setWaitTime(totalTicks)`. -/
def readyThread (t : Thread) (ticks : Int) : Thread :=
  { t with status := ThreadStatus.ready, waitTime := ticks }

/-- `Scheduler::ReadyToRun(thread)` of `scheduler.cc` lines 60-101: mark the
thread ready, stamp its wait time, and classify by priority band.  L3
(`p < 50`) appends FIFO; L2 (`50 ≤ p < 100`) inserts by priority and
requests a preemption when the admitted priority exceeds the running
thread's and the running thread is not the idle thread (id 0); L1
(`p ≥ 100`) inserts by burst estimate, recomputes the running thread's
remaining burst as `0.5 * getBurstTime() + 0.5 * (ticks - getBurstStart())`
— an `int` variable, so the value is the C truncation `Int.tdiv (a + b) 2` —
and, for a distinct admitted thread with a non-idle running thread, requests
a preemption when the running thread is itself in L1 and the admitted burst
estimate is strictly below the recomputed one, or unconditionally when the
running thread's priority is below 100. -/
def readyToRun (t : Thread) (s : SchedState) : SchedState :=
  let ticks := s.totalTicks
  let tq := readyThread t ticks
  let p := t.priority
  if p < 50 then
    { s with l3 := s.l3 ++ [tq] }
  else if p < 100 then
    let s1 := { s with l2 := insertByKey (fun th => -th.priority) tq s.l2 }
    if s.currentThread.priority < p ∧ s.currentThread.id ≠ 0 then
      { s1 with preempt := true }
    else s1
  else
    let s1 := { s with l1 := insertByKey (fun th => th.burstTime) tq s.l1 }
    let ti := Int.tdiv (s.currentThread.burstTime + (ticks - s.currentThread.burstStart)) 2
    if t.id ≠ s.currentThread.id ∧ s.currentThread.id ≠ 0 then
      if 100 ≤ s.currentThread.priority then
        if t.burstTime < ti then { s1 with preempt := true } else s1
      else { s1 with preempt := true }
    else s1

/-- `Scheduler::FindNextToRun()` of `scheduler.cc` lines 111-127: return and
remove the head of L1 if non-empty, else of L2, else of L3, else return
nothing leaving every queue unchanged. -/
def findNextToRun (s : SchedState) : Option Thread × SchedState :=
  match s.l1 with
  | t :: ts => (some t, { s with l1 := ts })
  | [] =>
    match s.l2 with
    | t :: ts => (some t, { s with l2 := ts })
    | [] =>
      match s.l3 with
      | t :: ts => (some t, { s with l3 := ts })
      | [] => (none, s)

/-- `Scheduler::Run(nextThread, finishing)` of `scheduler.cc` lines 146-206,
up to the `SWITCH` primitive (the code after `SWITCH` runs in the resumed
context).  Returns the new scheduler state, the outgoing thread with its
burst estimate updated by the truncated exponential average
`(getBurstTime() + duration) * 0.5`, and whether a context switch happened.
When `nextThread` is already the running thread the call returns at once
with nothing changed. -/
def run (next : Thread) (finishing : Bool) (s : SchedState) :
    SchedState × Option Thread × Bool :=
  let old := s.currentThread
  if old.id = next.id then (s, none, false)
  else
    let s1 := if finishing then { s with toBeDestroyed := some old } else s
    let ticks := s.totalTicks
    let duration := ticks - old.burstStart
    let ti := Int.tdiv (old.burstTime + duration) 2
    let next1 := { next with status := ThreadStatus.running, burstStart := ticks }
    ({ s1 with currentThread := next1 }, some { old with burstTime := ti }, true)

/-- The aging threshold test of `Scheduler::Aging`:
`ticks - getWaitTime() > 1500`. -/
def overdue (ticks : Int) (t : Thread) : Prop := 1500 < ticks - t.waitTime

instance (ticks : Int) (t : Thread) : Decidable (overdue ticks t) := by
  unfold overdue; infer_instance

/-- The promotion `Scheduler::Aging` applies to an overdue thread:
`setPriority(min(priority + 10, 149))` and `setWaitTime(ticks)`. -/
def agedThread (ticks : Int) (t : Thread) : Thread :=
  { t with priority := min (t.priority + 10) 149, waitTime := ticks }

/-- The first loop of `Scheduler::Aging` (lines 249-265): walk L1 and update
every overdue thread in place; nothing is removed or re-inserted. -/
def agingL1 (ticks : Int) : List Thread → List Thread
  | [] => []
  | t :: ts => (if overdue ticks t then agedThread ticks t else t) :: agingL1 ticks ts

/-- One step of the second loop of `Scheduler::Aging` (lines 266-281): an
overdue L2 thread is removed from `L2Q_`, promoted, and re-admitted through
`ReadyToRun`; any other thread is left alone. -/
def agingStep (t : Thread) (s : SchedState) : SchedState :=
  if overdue s.totalTicks t then
    readyToRun (agedThread s.totalTicks t) { s with l2 := s.l2.erase t }
  else s

/-- The second loop of `Scheduler::Aging`, iterated over the snapshot of L2
taken when the iterator was created.  A thread the loop re-admits into L2
carries a fresh wait stamp, so revisiting it (which the live iterator of the
source may do) is a no-op, making the snapshot iteration faithful. -/
def agingL2 : List Thread → SchedState → SchedState
  | [], s => s
  | t :: ts, s => agingL2 ts (agingStep t s)

/-- `Scheduler::Aging()` of `scheduler.cc` lines 241-282: the in-place L1
pass followed by the remove-and-readmit L2 pass. -/
def aging (s : SchedState) : SchedState :=
  agingL2 s.l2 { s with l1 := agingL1 s.totalTicks s.l1 }

/-! ## Claim theorems: BlockIndex -/

/-- C2: whenever the requested size needs more sectors than the pool reports
free (`NumClear() < numSectors`), `Allocate` returns `false` and the pool —
bitmap and disk alike — is left exactly as it was; the only mutation is to
the header's own `numBytes`/`numSectors` fields. -/
theorem c2_no_overallocation (g : FsGeometry) (st : FsState) (fileSize : Int)
    (h : (bmNumClear st.freeMap : Int) < divRoundUp fileSize g.sectorSize) :
    allocate g st fileSize =
      ({ numBytes := fileSize, numSectors := divRoundUp fileSize g.sectorSize,
         dataSectors := [] }, st, false) := by
  simp only [allocate]
  rw [if_pos h]

/-- Witness for C2 at a concrete input: a 10-byte request (5 sectors) against
a pool with only 3 free sectors fails and leaves the pool untouched. -/
theorem c2_no_overallocation_witness :
    allocate gSmall stThree 10 =
      ({ numBytes := 10, numSectors := divRoundUp 10 gSmall.sectorSize,
         dataSectors := [] }, stThree, false) :=
  c2_no_overallocation gSmall stThree 10 (by decide)

/-- C1 (code bug): the allocation/deallocation round trip does not restore
the free count once `Allocate` recurses.  With the representative geometry
(`SectorSize = 2`, `NumDirect = 2`, so `SingleSize = 4`) and 10 free
sectors, `Allocate(pool, 5)` succeeds, taking 3 data sectors plus 2 child
header sectors, but `Deallocate` only returns the 3 data sectors: the
interior branch of `FileHeader::Deallocate` never clears `dataSectors[i]`
itself, so the free count ends at 8, not 10. -/
theorem c1_roundtrip_leaks_header_sectors :
    (allocate gSmall stTen 5).2.2 = true ∧
    bmNumClear stTen.freeMap = 10 ∧
    bmNumClear (deallocate 4 gSmall (allocate gSmall stTen 5).2.1
      (allocate gSmall stTen 5).1).freeMap = 8 := by
  decide

/-- C3 (code bug): a failed child allocation does not propagate.  With 3
free sectors, `Allocate(pool, 5)` passes the up-front check
(`numSectors = 3 ≤ 3` free) but also needs 2 uncounted child-header
sectors; the second loop iteration gets `-1` from `FindAndSet` on the
exhausted pool and its recursive child `Allocate` of the remaining 1 byte
fails (the last conjunct evaluates that child call: `allocate0` ignores the
disk component, which is the only part of the pool state differing from the
in-run call), yet the overall call still returns `true` because the source
discards `hdr->Allocate`'s result. -/
theorem c3_child_failure_not_propagated :
    bmNumClear stThree.freeMap = 3 ∧
    (allocate gSmall stThree 5).1.numSectors = 3 ∧
    (allocate gSmall stThree 5).2.2 = true ∧
    (allocate gSmall stThree 5).1.dataSectors = [0, -1] ∧
    (allocate0 gSmall { freeMap := List.replicate 3 true, disk := fun _ => hdrInit }
      1).2.2 = false := by
  decide

/-- C5 (code bug): after an `Allocate` that reports success, `ByteToSector`
can return `-1` — not a valid sector — for an in-range offset.  Same
failing input as C3: `Allocate(pool, 5)` on a 3-sector pool returns `true`
with `dataSectors = [0, -1]`, and `ByteToSector(4)` (offset 4 of the 5-byte
file) descends through the garbage `-1` child entry and yields `-1`. -/
theorem c5_byte_to_sector_invalid_after_success :
    (allocate gSmall stThree 5).2.2 = true ∧
    (4 : Int) < (allocate gSmall stThree 5).1.numBytes ∧
    byteToSector 4 gSmall (allocate gSmall stThree 5).2.1
      (allocate gSmall stThree 5).1 4 = -1 := by
  decide

/-! ## Claim theorems: Scheduler (the direct ones) -/

/-- C7: `FindNextToRun` returns and removes the head of L1 when L1 is
non-empty, otherwise the head of L2, otherwise the head of L3, and returns
nothing with the state unchanged when all three queues are empty. -/
theorem c7_find_next_strict_priority (s : SchedState) :
    (∀ t ts, s.l1 = t :: ts → findNextToRun s = (some t, { s with l1 := ts })) ∧
    (∀ t ts, s.l1 = [] → s.l2 = t :: ts →
      findNextToRun s = (some t, { s with l2 := ts })) ∧
    (∀ t ts, s.l1 = [] → s.l2 = [] → s.l3 = t :: ts →
      findNextToRun s = (some t, { s with l3 := ts })) ∧
    (s.l1 = [] → s.l2 = [] → s.l3 = [] → findNextToRun s = (none, s)) := by
  obtain ⟨l1, l2, l3, cur, ticks, pre, tbd⟩ := s
  refine ⟨?_, ?_, ?_, ?_⟩
  · rintro t ts rfl; rfl
  · rintro t ts rfl rfl; rfl
  · rintro t ts rfl rfl rfl; rfl
  · rintro rfl rfl rfl; rfl

/-- A running thread used by the concrete scheduler states below. -/
def thrRunning : Thread :=
  { id := 1, priority := 100, burstTime := 3, burstStart := 100, waitTime := 0,
    status := ThreadStatus.running }

/-- A ready thread sitting in L1 of the concrete states below. -/
def thrA : Thread :=
  { id := 2, priority := 120, burstTime := 5, burstStart := 0, waitTime := 0,
    status := ThreadStatus.ready }

/-- A ready thread sitting in L2 of the concrete states below. -/
def thrB : Thread :=
  { id := 3, priority := 70, burstTime := 9, burstStart := 0, waitTime := 0,
    status := ThreadStatus.ready }

/-- A ready thread sitting in L3 of the concrete states below. -/
def thrC : Thread :=
  { id := 4, priority := 10, burstTime := 9, burstStart := 0, waitTime := 0,
    status := ThreadStatus.ready }

/-- A scheduler state with all three queues non-empty. -/
def sQueues : SchedState :=
  { l1 := [thrA], l2 := [thrB], l3 := [thrC], currentThread := thrRunning,
    totalTicks := 0, preempt := false, toBeDestroyed := none }

/-- Witness for C7: with all three queues non-empty, dispatch comes from L1. -/
theorem c7_find_next_strict_priority_witness :
    findNextToRun sQueues = (some thrA, { sQueues with l1 := [] }) :=
  (c7_find_next_strict_priority sQueues).1 thrA [] rfl

/-- C9: when `nextThread` is already the running thread (same identity),
`Run` returns immediately: the state is unchanged (in particular nothing is
marked for deferred destruction even with `finishing = true`, and no burst
estimate or burst start moves), no outgoing-thread update is produced, and
no context switch happens. -/
theorem c9_run_self_noop (next : Thread) (finishing : Bool) (s : SchedState)
    (h : s.currentThread.id = next.id) :
    run next finishing s = (s, none, false) := by
  simp only [run]
  rw [if_pos h]

/-- Witness for C9: re-dispatching the running thread with
`finishing = true` changes nothing. -/
theorem c9_run_self_noop_witness :
    run thrRunning true sQueues = (sQueues, none, false) :=
  c9_run_self_noop thrRunning true sQueues (by decide)

/-- C10: admitting an L1 thread (priority at least 100) distinct from the
running thread, with a non-idle running thread whose priority is below 100
— including priorities below 50, i.e. a running L3-band thread — makes
`ReadyToRun` request a preemption unconditionally, without comparing burst
estimates. -/
theorem c10_l1_admission_preempts_low_priority (t : Thread) (s : SchedState)
    (hp : 100 ≤ t.priority) (hid : t.id ≠ s.currentThread.id)
    (hcur : s.currentThread.id ≠ 0) (hlow : s.currentThread.priority < 100) :
    (readyToRun t s).preempt = true := by
  simp only [readyToRun]
  rw [if_neg (by omega), if_neg (by omega), if_pos ⟨hid, hcur⟩, if_neg (by omega)]

/-- A running thread in the L3 band (priority 10). -/
def thrRunningL3 : Thread :=
  { id := 1, priority := 10, burstTime := 3, burstStart := 100, waitTime := 0,
    status := ThreadStatus.running }

/-- A state whose running thread is in the L3 band. -/
def sRunL3 : SchedState :=
  { l1 := [], l2 := [], l3 := [], currentThread := thrRunningL3,
    totalTicks := 100, preempt := false, toBeDestroyed := none }

/-- Witness for C10: admitting the L1 thread `thrA` over the running L3-band
thread requests a preemption. -/
theorem c10_l1_admission_preempts_low_priority_witness :
    (readyToRun thrA sRunL3).preempt = true :=
  c10_l1_admission_preempts_low_priority thrA sRunL3 (by decide) (by decide)
    (by decide) (by decide)

/-! ## Claim C6: SRTF preemption test -/

/-- An L1 thread whose burst estimate sits exactly at the floor of the
running thread's recomputed average. -/
def thrNewL1 : Thread :=
  { id := 2, priority := 100, burstTime := 1, burstStart := 0, waitTime := 0,
    status := ThreadStatus.ready }

/-- An L1 thread with burst estimate 0. -/
def thrZeroBurst : Thread :=
  { id := 2, priority := 100, burstTime := 0, burstStart := 0, waitTime := 0,
    status := ThreadStatus.ready }

/-- A state whose running thread is in L1 with `burstTime = 3` and zero
elapsed time in the current quantum. -/
def sSrtf : SchedState :=
  { l1 := [], l2 := [], l3 := [], currentThread := thrRunning,
    totalTicks := 100, preempt := false, toBeDestroyed := none }

/-- Counterexample to C6 as stated.  The claim compares the admitted burst
estimate against the exact average `0.5 * lastEstimate + 0.5 * (now -
burstStart)`; over the integers, `bt < 0.5 * a + 0.5 * b` is exactly
`2 * bt < a + b`, which holds here (`2 * 1 < 3 + 0`, the exact average being
`1.5`).  The source, however, stores the recomputed estimate in an `int`
(`int ti = 0.5 * ... + 0.5 * ...`), truncating `1.5` to `1`, and `1 < 1`
fails — so no preemption is requested even though the admitted estimate is
strictly below the claim's exact average. -/
theorem c6_srtf_exact_average_cex :
    100 ≤ thrNewL1.priority ∧ thrNewL1.id ≠ sSrtf.currentThread.id ∧
    sSrtf.currentThread.id ≠ 0 ∧ 100 ≤ sSrtf.currentThread.priority ∧
    sSrtf.preempt = false ∧
    2 * thrNewL1.burstTime <
      sSrtf.currentThread.burstTime +
        (sSrtf.totalTicks - sSrtf.currentThread.burstStart) ∧
    (readyToRun thrNewL1 sSrtf).preempt = false := by
  decide

/-- C6 as amended: for an admitted L1 thread distinct from the non-idle
running thread, itself in the L1 band, with no preemption already pending,
`ReadyToRun` requests a preemption exactly when the admitted burst estimate
is strictly smaller than the truncated recomputed remaining estimate
`(lastEstimate + (now - burstStart)) / 2` (C truncating division — the value
the source actually stores in its `int ti`); in particular it never preempts
when the admitted estimate is larger. -/
theorem c6_srtf_preemption_truncated (t : Thread) (s : SchedState)
    (hp : 100 ≤ t.priority) (hid : t.id ≠ s.currentThread.id)
    (hcur : s.currentThread.id ≠ 0) (hl1 : 100 ≤ s.currentThread.priority)
    (hpre : s.preempt = false) :
    ((readyToRun t s).preempt = true ↔
      t.burstTime <
        Int.tdiv (s.currentThread.burstTime +
          (s.totalTicks - s.currentThread.burstStart)) 2) := by
  simp only [readyToRun]
  rw [if_neg (by omega), if_neg (by omega), if_pos ⟨hid, hcur⟩, if_pos hl1]
  by_cases hbt : t.burstTime <
      Int.tdiv (s.currentThread.burstTime +
        (s.totalTicks - s.currentThread.burstStart)) 2
  · rw [if_pos hbt]
    simpa using hbt
  · rw [if_neg hbt]
    simp [hpre, hbt]

/-- Witness for the amended C6: an admitted estimate of 0 against a
truncated recomputed estimate of 1 triggers the preemption request. -/
theorem c6_srtf_preemption_truncated_witness :
    (readyToRun thrZeroBurst sSrtf).preempt = true :=
  (c6_srtf_preemption_truncated thrZeroBurst sSrtf (by decide) (by decide)
    (by decide) (by decide) (by decide)).mpr (by decide)

/-! ## Claim C4: deallocation loop bound vs children written -/

/-- Iteration count of an interior `Allocate` loop: the ceiling of
`fs / chunk` over the naturals (`0` for a non-positive remaining size). -/
def chunkCount (chunk fs : Int) : Nat := (fs.toNat + chunk.toNat - 1) / chunk.toNat

theorem chunkCount_nonpos {chunk fs : Int} (hc : 0 < chunk) (h : fs ≤ 0) :
    chunkCount chunk fs = 0 := by
  unfold chunkCount
  have h1 : fs.toNat = 0 := by omega
  rw [h1]
  exact Nat.div_eq_of_lt (by omega)

theorem ceil_shift {n c : Nat} (hn : 1 ≤ n) (hc : 1 ≤ c) :
    (n + c - 1) / c = (n - 1) / c + 1 := by
  have h1 : n + c - 1 = (n - 1) + c := by omega
  rw [h1, Nat.add_div_right _ (by omega)]

theorem chunkCount_step {chunk fs : Int} (hc : 0 < chunk) (h : 0 < fs) :
    chunkCount chunk fs = chunkCount chunk (fs - chunk) + 1 := by
  unfold chunkCount
  have hm : (fs - chunk).toNat = fs.toNat - chunk.toNat := by omega
  rw [hm]
  have hcn : 1 ≤ chunk.toNat := by omega
  have hfn : 1 ≤ fs.toNat := by omega
  rcases le_or_lt fs.toNat chunk.toNat with hle | hlt
  · have h0 : fs.toNat - chunk.toNat = 0 := by omega
    rw [h0, ceil_shift hfn hcn, Nat.div_eq_of_lt (show fs.toNat - 1 < chunk.toNat by omega),
      Nat.div_eq_of_lt (show 0 + chunk.toNat - 1 < chunk.toNat by omega)]
  · rw [ceil_shift hfn hcn, ceil_shift (by omega) hcn]
    have h2 : fs.toNat - 1 = (fs.toNat - chunk.toNat - 1) + chunk.toNat := by omega
    rw [h2, Nat.add_div_right _ (by omega)]

/-- The Single-band loop writes exactly `ceil(fs / SingleSize)` child-header
entries into `dataSectors` (given a positive `SingleSize`, with enough fuel
for the iteration count). -/
theorem allocLoop1_length (g : FsGeometry) (hc : 0 < singleSize g) :
    ∀ (fuel : Nat) (st : FsState) (fs : Int) (acc : List Int), fs.toNat ≤ fuel →
      ((allocLoop1 g fuel st fs acc).1).length =
        acc.length + chunkCount (singleSize g) fs := by
  intro fuel
  induction fuel with
  | zero =>
    intro st fs acc hf
    simp only [allocLoop1]
    rw [chunkCount_nonpos hc (by omega)]
    omega
  | succ n ih =>
    intro st fs acc hf
    simp only [allocLoop1]
    by_cases h : 0 < fs
    · rw [if_pos h, ih _ _ _ (by omega), chunkCount_step hc h]
      simp only [List.length_append, List.length_cons, List.length_nil]
      omega
    · rw [if_neg h, chunkCount_nonpos hc (by omega)]
      simp only []
      omega

theorem tdiv_toNat {a b : Int} (ha : 0 ≤ a) (hb : 0 ≤ b) :
    Int.tdiv a b = ((a.toNat / b.toNat : Nat) : Int) := by
  lift a to ℕ using ha with m
  lift b to ℕ using hb with k
  simp only [Int.toNat_natCast]
  rfl

theorem divRoundUp_toNat {n v : Int} (hv : 0 < v) (hn : 0 ≤ n) :
    divRoundUp n v = (((n.toNat + v.toNat - 1) / v.toNat : Nat) : Int) := by
  unfold divRoundUp
  rw [tdiv_toNat (by omega) (by omega)]
  congr 2
  omega

theorem ceil_div_compose {n a b : Nat} (hn : 1 ≤ n) (ha : 1 ≤ a) (hb : 1 ≤ b) :
    ((n + a - 1) / a + b - 1) / b = (n + a * b - 1) / (a * b) := by
  have hab : 1 ≤ a * b := Nat.one_le_iff_ne_zero.mpr (Nat.mul_ne_zero (by omega) (by omega))
  rw [ceil_shift hn ha]
  have h1 : ∀ q : Nat, q + 1 + b - 1 = q + b := fun q => by omega
  rw [h1 ((n - 1) / a), Nat.add_div_right _ (show 0 < b by omega),
    Nat.div_div_eq_div_mul, ceil_shift hn hab]

/-- Counterexample to C4 as stated: in the Double band the two formulas
disagree.  With `SectorSize = 2`, `NumDirect = 2` and a 9-byte request
(`DoubleSize = 8 < 9 ≤ 16 = TripleSize`), `Allocate` writes 2 child headers
(`ceil(9 / DoubleSize)`), but `numSectors = 5` and the deallocation loop
bound is `divRoundUp(5, NumDirect) = 3`, so `Deallocate` would visit a third
"child" that was never written. -/
theorem c4_dealloc_bound_double_band_cex :
    singleSize gSmall < (allocate gSmall stTwenty 9).1.numBytes ∧
    (allocate gSmall stTwenty 9).2.2 = true ∧
    (allocate gSmall stTwenty 9).1.dataSectors.length = 2 ∧
    divRoundUp (allocate gSmall stTwenty 9).1.numSectors gSmall.numDirect = 3 := by
  decide

/-- C4 as amended: in the Single band (`SingleSize < numBytes ≤
DoubleSize`), and only there, the deallocation loop bound
`divRoundUp(numSectors, NumDirect)` equals the number of child headers
`Allocate` wrote into `dataSectors`, so `Deallocate` visits exactly the
children `Allocate` created. -/
theorem c4_dealloc_bound_matches_single_band (g : FsGeometry) (st : FsState)
    (S : Int) (hss : 0 < g.sectorSize) (hnd : 0 < g.numDirect)
    (h1 : singleSize g < S) (h2 : S ≤ doubleSize g)
    (hclear : divRoundUp S g.sectorSize ≤ (bmNumClear st.freeMap : Int)) :
    divRoundUp (allocate g st S).1.numSectors g.numDirect =
      ((allocate g st S).1.dataSectors.length : Int) := by
  have hsingle : 0 < singleSize g := mul_pos hnd hss
  have hdouble : 0 < doubleSize g := mul_pos hnd hsingle
  have htriple : S ≤ tripleSize g := by
    calc S ≤ doubleSize g := h2
    _ ≤ g.numDirect * doubleSize g := le_mul_of_one_le_left (le_of_lt hdouble) hnd
    _ = tripleSize g := rfl
  simp only [allocate]
  rw [if_neg (by omega), if_neg (by omega), if_neg (by omega), if_pos h1]
  dsimp only
  rw [allocLoop1_length g hsingle S.toNat st S [] (le_refl _)]
  have hS1 : (1 : Int) ≤ S := by omega
  rw [divRoundUp_toNat hss (by omega)]
  rw [divRoundUp_toNat hnd (Int.natCast_nonneg _)]
  have hsn : (singleSize g).toNat = g.sectorSize.toNat * g.numDirect.toNat := by
    have ha := Int.toNat_of_nonneg (le_of_lt hss)
    have hb := Int.toNat_of_nonneg (le_of_lt hnd)
    have hrepr : singleSize g = ((g.sectorSize.toNat * g.numDirect.toNat : Nat) : Int) := by
      unfold singleSize
      push_cast
      rw [ha, hb]
      ring
    rw [hrepr, Int.toNat_natCast]
  simp only [Int.toNat_natCast, List.length_nil, Nat.zero_add]
  unfold chunkCount
  rw [hsn]
  rw [ceil_div_compose (by omega) (by omega) (by omega)]

/-- Witness for the amended C4 at a concrete Single-band input: for a 5-byte
file (`SingleSize = 4 < 5 ≤ 8 = DoubleSize`) the bound `divRoundUp(3, 2) = 2`
equals the 2 children written. -/
theorem c4_dealloc_bound_matches_single_band_witness :
    divRoundUp (allocate gSmall stTen 5).1.numSectors gSmall.numDirect =
      ((allocate gSmall stTen 5).1.dataSectors.length : Int) :=
  c4_dealloc_bound_matches_single_band gSmall stTen 5 (by decide) (by decide)
    (by decide) (by decide) (by decide)

/-! ## Claim C8: aging -/

theorem agingL1_length (ticks : Int) (l : List Thread) :
    (agingL1 ticks l).length = l.length := by
  induction l with
  | nil => rfl
  | cons t ts ih => simp [agingL1, ih]

theorem agingL1_getElem (ticks : Int) (l : List Thread) (i : Nat) :
    (agingL1 ticks l)[i]? =
      (l[i]?).map (fun t => if overdue ticks t then agedThread ticks t else t) := by
  induction l generalizing i with
  | nil => simp [agingL1]
  | cons t ts ih =>
    cases i with
    | zero => simp [agingL1]
    | succ n => simpa [agingL1] using ih n

theorem mem_insertByKey {key : Thread → Int} {t x : Thread} {l : List Thread} :
    x ∈ insertByKey key t l ↔ x = t ∨ x ∈ l := by
  induction l with
  | nil => simp [insertByKey]
  | cons y ys ih =>
    simp only [insertByKey]
    by_cases h : key y ≤ key t
    · rw [if_pos h]
      simp only [List.mem_cons, ih]
      tauto
    · rw [if_neg h]
      simp only [List.mem_cons]

theorem count_insertByKey_ne {key : Thread → Int} {t x : Thread} {l : List Thread}
    (h : x ≠ t) : (insertByKey key t l).count x = l.count x := by
  induction l with
  | nil => simp [insertByKey, List.count_cons, h]
  | cons y ys ih =>
    simp only [insertByKey]
    by_cases hk : key y ≤ key t
    · rw [if_pos hk]
      simp [List.count_cons, ih]
    · rw [if_neg hk]
      simp [List.count_cons, h]

theorem readyToRun_totalTicks (t : Thread) (s : SchedState) :
    (readyToRun t s).totalTicks = s.totalTicks := by
  simp only [readyToRun]
  split_ifs <;> rfl

theorem readyToRun_queues_mem (t x : Thread) (s : SchedState)
    (hx : x ∈ s.l1 ∨ x ∈ s.l2 ∨ x ∈ s.l3) :
    x ∈ (readyToRun t s).l1 ∨ x ∈ (readyToRun t s).l2 ∨ x ∈ (readyToRun t s).l3 := by
  simp only [readyToRun]
  split_ifs <;> rcases hx with h | h | h <;>
    simp [mem_insertByKey, List.mem_append, h]

theorem readyToRun_self_mem (t : Thread) (s : SchedState) :
    readyThread t s.totalTicks ∈ (readyToRun t s).l1 ∨
    readyThread t s.totalTicks ∈ (readyToRun t s).l2 ∨
    readyThread t s.totalTicks ∈ (readyToRun t s).l3 := by
  simp only [readyToRun]
  split_ifs <;> simp [mem_insertByKey, List.mem_append]

theorem readyToRun_count_l2 (t x : Thread) (s : SchedState)
    (h : x ≠ readyThread t s.totalTicks) :
    ((readyToRun t s).l2).count x = (s.l2).count x := by
  simp only [readyToRun]
  split_ifs <;> simp [count_insertByKey_ne h]

theorem readyToRun_l2_notmem (t x : Thread) (s : SchedState)
    (h : x ≠ readyThread t s.totalTicks) (hm : x ∉ s.l2) :
    x ∉ (readyToRun t s).l2 := by
  intro hmem
  have h1 : 0 < ((readyToRun t s).l2).count x := List.count_pos_iff.mpr hmem
  have h2 : (s.l2).count x = 0 := List.count_eq_zero.mpr hm
  rw [readyToRun_count_l2 t x s h] at h1
  omega

theorem agingStep_totalTicks (t : Thread) (s : SchedState) :
    (agingStep t s).totalTicks = s.totalTicks := by
  unfold agingStep
  split_ifs
  · rw [readyToRun_totalTicks]
  · rfl

theorem agingL2_totalTicks (ts : List Thread) (s : SchedState) :
    (agingL2 ts s).totalTicks = s.totalTicks := by
  induction ts generalizing s with
  | nil => rfl
  | cons t ts ih =>
    simp only [agingL2]
    rw [ih, agingStep_totalTicks]

theorem agingL2_append (as bs : List Thread) (s : SchedState) :
    agingL2 (as ++ bs) s = agingL2 bs (agingL2 as s) := by
  induction as generalizing s with
  | nil => rfl
  | cons t ts ih =>
    simp only [List.cons_append, agingL2]
    exact ih _

theorem agingStep_queues_mem (t x : Thread) (s : SchedState)
    (hfresh : s.totalTicks - x.waitTime ≤ 1500)
    (hx : x ∈ s.l1 ∨ x ∈ s.l2 ∨ x ∈ s.l3) :
    x ∈ (agingStep t s).l1 ∨ x ∈ (agingStep t s).l2 ∨ x ∈ (agingStep t s).l3 := by
  unfold agingStep
  split_ifs with h
  · apply readyToRun_queues_mem
    rcases hx with h1 | h1 | h1
    · exact Or.inl h1
    · refine Or.inr (Or.inl ?_)
      have hne : x ≠ t := by
        intro he
        subst he
        unfold overdue at h
        omega
      exact (List.mem_erase_of_ne hne).2 h1
    · exact Or.inr (Or.inr h1)
  · exact hx

theorem agingL2_queues_mem (ts : List Thread) (s : SchedState) (x : Thread)
    (hfresh : s.totalTicks - x.waitTime ≤ 1500)
    (hx : x ∈ s.l1 ∨ x ∈ s.l2 ∨ x ∈ s.l3) :
    x ∈ (agingL2 ts s).l1 ∨ x ∈ (agingL2 ts s).l2 ∨ x ∈ (agingL2 ts s).l3 := by
  induction ts generalizing s with
  | nil => exact hx
  | cons t ts ih =>
    simp only [agingL2]
    exact ih _ (by rw [agingStep_totalTicks]; exact hfresh)
      (agingStep_queues_mem t x s hfresh hx)

theorem agingStep_count_l2_le (t x : Thread) (s : SchedState)
    (h : x.waitTime ≠ s.totalTicks) :
    ((agingStep t s).l2).count x ≤ (s.l2).count x := by
  unfold agingStep
  split_ifs with ho
  · have hne : x ≠ readyThread (agedThread s.totalTicks t)
        ({ s with l2 := (s.l2).erase t } : SchedState).totalTicks := by
      intro he
      exact h (congrArg Thread.waitTime he)
    rw [readyToRun_count_l2 _ _ _ hne]
    exact (List.erase_sublist t s.l2).count_le x
  · exact le_refl _

theorem agingL2_count_l2_le (ts : List Thread) (s : SchedState) (x : Thread)
    (h : x.waitTime ≠ s.totalTicks) :
    ((agingL2 ts s).l2).count x ≤ (s.l2).count x := by
  induction ts generalizing s with
  | nil => exact le_refl _
  | cons t ts ih =>
    simp only [agingL2]
    exact le_trans (ih _ (by rw [agingStep_totalTicks]; exact h))
      (agingStep_count_l2_le t x s h)

theorem agingL2_l2_notmem (ts : List Thread) (s : SchedState) (x : Thread)
    (h : x.waitTime ≠ s.totalTicks) (hm : x ∉ s.l2) :
    x ∉ (agingL2 ts s).l2 := by
  intro hmem
  have h1 : 0 < ((agingL2 ts s).l2).count x := List.count_pos_iff.mpr hmem
  have h2 : (s.l2).count x = 0 := List.count_eq_zero.mpr hm
  have h3 := agingL2_count_l2_le ts s x h
  omega

theorem readyThread_aged (ticks : Int) (t : Thread)
    (h : t.status = ThreadStatus.ready) :
    readyThread (agedThread ticks t) ticks = agedThread ticks t := by
  cases t
  simp_all [readyThread, agedThread]

/-- C8: on every `Aging()` call, every task waiting strictly longer than
1500 ticks gets its priority raised to `min(priority + 10, 149)` (so it is
non-decreasing for in-range priorities and never exceeds 149) and its wait
stamp reset to the current tick; the L1 pass does this in place — same
position, nothing dequeued or re-inserted and the list length unchanged —
while an overdue L2 task is removed from L2 and re-admitted through
`ReadyToRun` (landing in whichever queue its new priority selects). -/
theorem c8_aging_promotion (s : SchedState) (hnd : s.l2.Nodup) :
    ((agingL1 s.totalTicks s.l1).length = s.l1.length) ∧
    (∀ i : Nat, (agingL1 s.totalTicks s.l1)[i]? =
      (s.l1[i]?).map
        (fun t => if overdue s.totalTicks t then agedThread s.totalTicks t else t)) ∧
    (∀ t : Thread, overdue s.totalTicks t →
      (agedThread s.totalTicks t).priority = min (t.priority + 10) 149 ∧
      (agedThread s.totalTicks t).waitTime = s.totalTicks ∧
      (t.priority ≤ 149 → t.priority ≤ (agedThread s.totalTicks t).priority) ∧
      (agedThread s.totalTicks t).priority ≤ 149) ∧
    (∀ t ∈ s.l2, overdue s.totalTicks t → t.status = ThreadStatus.ready →
      (agedThread s.totalTicks t ∈ (aging s).l1 ∨
       agedThread s.totalTicks t ∈ (aging s).l2 ∨
       agedThread s.totalTicks t ∈ (aging s).l3) ∧
      t ∉ (aging s).l2) := by
  refine ⟨agingL1_length _ _, fun i => agingL1_getElem _ _ i, ?_, ?_⟩
  · intro t ho
    exact ⟨rfl, rfl, fun hb => le_min (by omega) hb, min_le_right _ _⟩
  · intro t hmem ho hst
    obtain ⟨pre, post, hsplit⟩ := List.append_of_mem hmem
    have hwt : t.waitTime ≠ s.totalTicks := by
      unfold overdue at ho
      omega
    set s1 : SchedState := { s with l1 := agingL1 s.totalTicks s.l1 } with hs1def
    have haging : aging s = agingL2 post (agingStep t (agingL2 pre s1)) := by
      rw [hs1def]
      unfold aging
      rw [hsplit, agingL2_append]
      rfl
    set s2 : SchedState := agingL2 pre s1 with hs2def
    have hticks2 : s2.totalTicks = s.totalTicks := agingL2_totalTicks pre s1
    have hstep : agingStep t s2 =
        readyToRun (agedThread s.totalTicks t) { s2 with l2 := (s2.l2).erase t } := by
      unfold agingStep
      rw [if_pos (show overdue s2.totalTicks t from by rw [hticks2]; exact ho), hticks2]
    set s3 : SchedState :=
      readyToRun (agedThread s.totalTicks t) { s2 with l2 := (s2.l2).erase t } with hs3def
    have hticks3 : s3.totalTicks = s.totalTicks := by
      rw [hs3def, readyToRun_totalTicks]
      exact hticks2
    have ht_not_s3 : t ∉ s3.l2 := by
      have hcount_s : (s.l2).count t = 1 := List.count_eq_one_of_mem hnd hmem
      have hcount2 : (s2.l2).count t ≤ 1 := by
        have h1 := agingL2_count_l2_le pre s1 t hwt
        calc (s2.l2).count t ≤ (s1.l2).count t := h1
        _ = 1 := hcount_s
      have herase : ((s2.l2).erase t).count t = 0 := by
        rw [List.count_erase_self]
        omega
      have hne : t ≠ readyThread (agedThread s.totalTicks t)
          ({ s2 with l2 := (s2.l2).erase t } : SchedState).totalTicks := by
        intro he
        apply hwt
        have hw := congrArg Thread.waitTime he
        exact hw.trans hticks2
      exact readyToRun_l2_notmem _ t _ hne (List.count_eq_zero.mp herase)
    have haged_mem3 : agedThread s.totalTicks t ∈ s3.l1 ∨
        agedThread s.totalTicks t ∈ s3.l2 ∨ agedThread s.totalTicks t ∈ s3.l3 := by
      have h0 := readyToRun_self_mem (agedThread s.totalTicks t)
        { s2 with l2 := (s2.l2).erase t }
      have hrt : readyThread (agedThread s.totalTicks t)
          ({ s2 with l2 := (s2.l2).erase t } : SchedState).totalTicks =
            agedThread s.totalTicks t := by
        show readyThread (agedThread s.totalTicks t) s2.totalTicks =
          agedThread s.totalTicks t
        rw [hticks2]
        exact readyThread_aged _ _ hst
      rw [hrt] at h0
      exact h0
    refine ⟨?_, ?_⟩
    · rw [haging, hstep]
      refine agingL2_queues_mem post s3 (agedThread s.totalTicks t) ?_ haged_mem3
      rw [hticks3]
      show s.totalTicks - s.totalTicks ≤ 1500
      omega
    · rw [haging, hstep]
      refine agingL2_l2_notmem post s3 t ?_ ht_not_s3
      rw [hticks3]
      exact hwt

/-- A thread in L1 of the concrete aging state, overdue for promotion. -/
def thrL1Aging : Thread :=
  { id := 5, priority := 120, burstTime := 4, burstStart := 0, waitTime := 0,
    status := ThreadStatus.ready }

/-- A thread in L2 of the concrete aging state, overdue for promotion. -/
def thrL2Aging : Thread :=
  { id := 6, priority := 95, burstTime := 7, burstStart := 0, waitTime := 0,
    status := ThreadStatus.ready }

/-- A state at tick 2000 in which both queued threads have waited 2000 ticks. -/
def sAging : SchedState :=
  { l1 := [thrL1Aging], l2 := [thrL2Aging], l3 := [], currentThread := thrRunning,
    totalTicks := 2000, preempt := false, toBeDestroyed := none }

/-- Witness for C8: the overdue L2 thread (priority 95, promoted to 105) is
re-admitted into one of the queues and its old incarnation leaves L2. -/
theorem c8_aging_promotion_witness :
    (agedThread sAging.totalTicks thrL2Aging ∈ (aging sAging).l1 ∨
     agedThread sAging.totalTicks thrL2Aging ∈ (aging sAging).l2 ∨
     agedThread sAging.totalTicks thrL2Aging ∈ (aging sAging).l3) ∧
    thrL2Aging ∉ (aging sAging).l2 :=
  (c8_aging_promotion sAging (by decide)).2.2.2 thrL2Aging (by decide) (by decide)
    (by decide)
